import Mathlib

/-!
# IssueCraft — a shallow embedding of the query pipeline

This file embeds, in Lean, the parts of the IssueCraft repository that its
specification talks about:

* the generic field-map value model used by the filter/ordering evaluator
  (`facet_value::Value`, modelled by `DValue`);
* the filter evaluator `FilterExpression::matches` and `compare_values`
  (crates/iql-parser/src/ast.rs);
* the field-level update `FieldUpdate::apply_to` (crates/iql-parser/src/ast.rs);
* the redb execution engine (crates/storage/redb/src/lib.rs): tables,
  `get_next_issue_id`, `get_all` (the SELECT pipeline), delete cascades,
  CREATE PROJECT / CREATE ISSUE, CLOSE and REOPEN;
* the typed records of crates/core/src/lib.rs (`IssueInfo`, `ProjectInfo`)
  together with their field-map serialization (facet_json omits `Option`
  fields that are `None`, per `#[facet(skip_serializing_if = Option::is_none)]`);
* the single-user principal provider of crates/core/src/lib.rs;
* the recursive-descent parser for `CREATE PROJECT` statements
  (crates/iql-parser/src/parser.rs) over the lexer's token type.

Tables of the redb store map string keys to serialized records and iterate in
ascending lexicographic key order (redb is a B-tree over byte-ordered keys);
a table is modelled as an association list kept in that order, and the JSON
serialization layer is modelled by storing the field-map form of each record.
-/

namespace IssueCraft

/-! ## Byte-order string comparison

Rust compares `&str` keys and `String` values by their UTF-8 bytes.  On the
ASCII identifiers, `#` and digits used for keys this coincides with comparing
the scalar values of the characters, which is what `charsCmp` does. -/

def natCmp (a b : Nat) : Ordering :=
  if a < b then .lt else if a = b then .eq else .gt

def charCmp (a b : Char) : Ordering := natCmp a.toNat b.toNat

def charsCmp : List Char → List Char → Ordering
  | [], [] => .eq
  | [], _ :: _ => .lt
  | _ :: _, [] => .gt
  | a :: as, b :: bs =>
    match charCmp a b with
    | .eq => charsCmp as bs
    | o => o

def strOrd (a b : String) : Ordering := charsCmp a.data b.data

def strLt (a b : String) : Bool := strOrd a b == .lt

def strLe (a b : String) : Bool := !(strOrd a b == .gt)

def isPrefixList : List Char → List Char → Bool
  | [], _ => true
  | _ :: _, [] => false
  | a :: as, b :: bs => a == b && isPrefixList as bs

/-- Rust's `s.starts_with(pre)` on strings. -/
def strStartsWith (s pre : String) : Bool := isPrefixList pre.data s.data

/-! ## The generic value model

`facet_value::Value` as the engine observes it: JSON scalars and objects
(arrays never occur in stored records).  An object keeps its fields in
insertion order, which for stored records is the declaration order of the
record type.  Floats are carried as an opaque bit pattern: no claim of the
specification depends on floating-point behaviour. -/

inductive DValue where
  | vstr (s : String)
  | vnat (n : Nat)
  | vfloat (bits : Nat)
  | vbool (b : Bool)
  | vnull
  | vobj (fields : List (String × DValue))

mutual

/-- Structural equality of values — `PartialEq` on `facet_value::Value`. -/
def dvalBeq : DValue → DValue → Bool
  | .vstr a, .vstr b => a == b
  | .vnat a, .vnat b => a == b
  | .vfloat a, .vfloat b => a == b
  | .vbool a, .vbool b => a == b
  | .vnull, .vnull => true
  | .vobj fs, .vobj gs => fieldsBeq fs gs
  | _, _ => false

def fieldsBeq : List (String × DValue) → List (String × DValue) → Bool
  | [], [] => true
  | (k, v) :: r, (k', v') :: r' => k == k' && dvalBeq v v' && fieldsBeq r r'
  | _, _ => false

end

instance : BEq DValue := ⟨dvalBeq⟩

/-- Model of `Value::as_object` — `some` exactly on objects. -/
def DValue.asObject : DValue → Option (List (String × DValue))
  | .vobj fs => some fs
  | _ => none

/-- Model of `Value::as_string`. -/
def DValue.asString : DValue → Option String
  | .vstr s => some s
  | _ => none

/-- Model of `Value::is_null`. -/
def DValue.isNull : DValue → Bool
  | .vnull => true
  | _ => false

/-- Model of `VObject::get` — first binding of the key, if any. -/
def objGet (fields : List (String × DValue)) (k : String) : Option DValue :=
  match fields with
  | [] => none
  | (k', v) :: r => if k' = k then some v else objGet r k

/-- Model of `VObject::insert` — overwrite the value at an existing key in place,
append otherwise. -/
def objInsert (fields : List (String × DValue)) (k : String) (v : DValue) :
    List (String × DValue) :=
  match fields with
  | [] => [(k, v)]
  | (k', v') :: r => if k' = k then (k, v) :: r else (k', v') :: objInsert r k v

/-- Model of `VObject::contains_key`. -/
def objContainsKey (fields : List (String × DValue)) (k : String) : Bool :=
  match fields with
  | [] => false
  | (k', _) :: r => k' == k || objContainsKey r k

/-- Model of `Value::partial_cmp` — the partial order of `facet_value`: scalars of the
same kind compare by their natural order, everything else is incomparable.
(Modelled from the external facet_value crate; the specification leaves
serialization and its value model to an external collaborator, and no claim
depends on a cross-kind comparison being defined.) -/
def vCompare : DValue → DValue → Option Ordering
  | .vstr a, .vstr b => some (strOrd a b)
  | .vnat a, .vnat b => some (natCmp a b)
  | .vfloat a, .vfloat b => some (natCmp a b)
  | .vbool a, .vbool b => some (natCmp a.toNat b.toNat)
  | .vnull, .vnull => some .eq
  | _, _ => none

/-! ## Literal values and filters (crates/iql-parser/src/ast.rs) -/

inductive Priority where
  | critical
  | high
  | medium
  | low
deriving DecidableEq

def Priority.display : Priority → String
  | .critical => "CRITICAL"
  | .high => "HIGH"
  | .medium => "MEDIUM"
  | .low => "LOW"

/-- Model of `IqlValue` — a literal in a query.  `number` carries the parsed i64;
`float` the opaque bit pattern of the f64. -/
inductive IqlValue where
  | string (s : String)
  | number (n : Int)
  | float (bits : Nat)
  | boolean (b : Bool)
  | null
  | priority (p : Priority)
  | identifier (id : String)
deriving DecidableEq

/-- Model of `IqlValue::to_facet`.  `Number(n)` goes through `VNumber::from_u64(n as u64)`,
so a negative i64 wraps to its two's-complement u64 representative. -/
def IqlValue.toFacet : IqlValue → DValue
  | .string s => .vstr s
  | .number n => .vnat (n.emod (2 ^ 64)).toNat
  | .float bits => .vfloat bits
  | .boolean b => .vbool b
  | .null => .vnull
  | .priority p => .vstr p.display
  | .identifier id => .vstr id

inductive ComparisonOp where
  | equal
  | notEqual
  | greaterThan
  | lessThan
  | greaterThanOrEqual
  | lessThanOrEqual
  | like
deriving DecidableEq

inductive FilterExpression where
  | comparison (field : String) (op : ComparisonOp) (value : IqlValue)
  | and (left right : FilterExpression)
  | or (left right : FilterExpression)
  | not (expr : FilterExpression)
  | inList (field : String) (values : List IqlValue)
  | isNull (field : String)
  | isNotNull (field : String)

/-- The `%`-pattern of `LIKE` after `pattern.replace("%", ".*")` is run as the
anchored regex `^…$`; for patterns free of other regex metacharacters this is
exactly glob matching with `%` as "any run of characters", which is what this
function computes. -/
def globMatch : List Char → List Char → Bool
  | [], [] => true
  | [], _ :: _ => false
  | '%' :: ps, [] => globMatch ps []
  | '%' :: ps, c :: cs => globMatch ps (c :: cs) || globMatch ('%' :: ps) cs
  | _ :: _, [] => false
  | p :: ps, c :: cs => p == c && globMatch ps cs
termination_by ps cs => (ps.length, cs.length)

/-- Model of `FilterExpression::compare_values`. -/
def compareValues (fieldValue : DValue) (op : ComparisonOp)
    (filterValue : IqlValue) : Bool :=
  match op with
  | .equal => dvalBeq fieldValue filterValue.toFacet
  | .notEqual => !(dvalBeq fieldValue filterValue.toFacet)
  | .greaterThan => vCompare fieldValue filterValue.toFacet == some .gt
  | .lessThan => vCompare fieldValue filterValue.toFacet == some .lt
  | .greaterThanOrEqual =>
    vCompare fieldValue filterValue.toFacet == some .gt
      || vCompare fieldValue filterValue.toFacet == some .eq
  | .lessThanOrEqual =>
    vCompare fieldValue filterValue.toFacet == some .lt
      || vCompare fieldValue filterValue.toFacet == some .eq
  | .like =>
    let fieldStr := (fieldValue.asString).getD ""
    match filterValue with
    | .string pattern => globMatch pattern.data fieldStr.data
    | _ => false

/-- Model of `FilterExpression::matches` — evaluate a filter against a record's opaque
id and its field-map `value`. -/
def FilterExpression.matches (f : FilterExpression) (id : String)
    (value : DValue) : Bool :=
  match f with
  | .comparison field op filterValue =>
    match value.asObject with
    | none => false
    | some obj =>
      if field = "id" then compareValues (.vstr id) op filterValue
      else
        match objGet obj field with
        | none => false
        | some fieldValue => compareValues fieldValue op filterValue
  | .and left right => left.matches id value && right.matches id value
  | .or left right => left.matches id value || right.matches id value
  | .not expr => !(expr.matches id value)
  | .inList field values =>
    match value.asObject with
    | none => false
    | some obj =>
      match objGet obj field with
      | none => false
      | some fieldValue =>
        values.any fun filterVal => compareValues fieldValue .equal filterVal
  | .isNull field =>
    match value.asObject with
    | none => false
    | some obj =>
      match objGet obj field with
      | none => true
      | some v => v.isNull
  | .isNotNull field =>
    match value.asObject with
    | none => false
    | some obj =>
      match objGet obj field with
      | none => false
      | some v => !(v.isNull)

/-! ## SELECT statements and the `get_all` pipeline
(crates/storage/redb/src/lib.rs, `Database::get_all`) -/

inductive EntityType where
  | users
  | projects
  | issues
  | comments
deriving DecidableEq

inductive Columns where
  | all
  | named (cols : List String)
deriving DecidableEq

inductive OrderDirection where
  | asc
  | desc
deriving DecidableEq

structure OrderBy where
  field : String
  direction : OrderDirection
deriving DecidableEq

structure SelectStatement where
  columns : Columns
  fromTable : EntityType
  filter : Option FilterExpression
  orderBy : Option OrderBy
  limit : Option Nat
  offset : Option Nat

/-- A redb table: string keys mapped to serialized records, held (and
iterated) in ascending lexicographic key order. -/
abbrev Table := List (String × DValue)

/-- The comparator `get_all` passes to `sort_by` when an `ORDER BY` is
present: look the field up in both objects; a record lacking the field
compares `Less` than one having it; two present values go through
`partial_cmp(..).unwrap()`.  The `unwrap` panics on incomparable values —
the model returns `Ordering.eq` there, so on inputs where the source would
panic the model has no counterpart in the program.  (`a.1.as_object().unwrap()`
likewise panics on a non-object record; stored records are always objects.) -/
def getFieldVal (field : String) (kv : String × DValue) : Option DValue :=
  objGet (kv.2.asObject.getD []) field

def cmpOptVals : Option DValue → Option DValue → Ordering
  | none, none => .eq
  | some _, none => .gt
  | none, some _ => .lt
  | some v1, some v2 => (vCompare v1 v2).getD .eq

def orderByCmp (field : String) (a b : String × DValue) : Ordering :=
  cmpOptVals (getFieldVal field a) (getFieldVal field b)

/-- Insert `x` into `l` in front of the first element `y` with
`cmp x y ≠ .gt` — the insertion step of a stable sort. -/
def insertBy (cmp : α → α → Ordering) (x : α) : List α → List α
  | [] => [x]
  | y :: ys => if cmp x y = .gt then y :: insertBy cmp x ys else x :: y :: ys

/-- Model of `Vec::sort_by` — a stable sort by a comparator.  For any comparator that
is a total preorder the output of a stable sort is unique, so insertion sort
is a faithful model of the source's stable sort on such comparators. -/
def sortBy (cmp : α → α → Ordering) : List α → List α
  | [] => []
  | x :: xs => insertBy cmp x (sortBy cmp xs)

/-- The sorting stage of `get_all` for `ORDER BY field`. -/
def sortByField (field : String) (l : Table) : Table :=
  sortBy (orderByCmp field) l

/-- The post-iteration window: `.skip(offset.unwrap_or(0))` then
`.take(limit.unwrap_or(u64::MAX))`. -/
def offsetLimitWindow (offset limit : Option Nat) (l : Table) : Table :=
  (l.drop (offset.getD 0)).take (limit.getD (2 ^ 64 - 1))

/-- The filter stage of `get_all`: keep records matching the WHERE filter (all
of them when there is none). -/
def filterStage (filter : Option FilterExpression) (l : Table) : Table :=
  l.filter fun kv =>
    match filter with
    | none => true
    | some filterExpr => filterExpr.matches kv.1 kv.2

/-- Model of `Database::get_all` on the table selected by the statement: iterate the
table in key order, apply offset then limit over the raw iteration, then sort
if an `ORDER BY` is present, then filter if a WHERE filter is present.  (The
final `from_value` step converting each surviving field map into its typed
record is the identity on the `(id, record)` pairs the claims are about and
is omitted; an absent table is the empty list.) -/
def getAll (table : Table) (stmt : SelectStatement) : Table :=
  let window := offsetLimitWindow stmt.offset stmt.limit table
  let sorted :=
    match stmt.orderBy with
    | none => window
    | some ob => sortByField ob.field window
  filterStage stmt.filter sorted

/-! ## Typed records (crates/core/src/lib.rs) and their field-map form

facet_json serializes a record's fields in declaration order and omits an
`Option` field that is `None` (`#[facet(skip_serializing_if = Option::is_none)]`).
Unit enum variants serialize as their name; the `Closed { reason }` variant as
a one-field object. -/

inductive IssueKind where
  | epic
  | improvement
  | bug
  | task
deriving DecidableEq

inductive CloseReason where
  | done
  | duplicate
  | wontFix
deriving DecidableEq

/-- Since `CloseReason` has `#[default] Done`: `reason.clone().unwrap_or_default()`. -/
def CloseReason.defaultReason : CloseReason := .done

inductive IssueStatus where
  | open
  | assigned
  | blocked
  | closed (reason : CloseReason)
deriving DecidableEq

structure IssueInfo where
  title : String
  kind : IssueKind
  description : Option String
  status : IssueStatus
  project : String
  priority : Option Priority
  assignee : String
deriving DecidableEq

structure ProjectInfo where
  description : Option String
  owner : String
  name : Option String
deriving DecidableEq

structure CommentInfo where
  issue : String
  createdAt : Nat
  content : String
  author : String
deriving DecidableEq

/-- The declared attributes of `IssueInfo` (crates/core/src/lib.rs, lines
88–99), in declaration order. -/
def issueInfoFields : List String :=
  ["title", "kind", "description", "status", "project", "priority", "assignee"]

def IssueKind.serial : IssueKind → String
  | .epic => "Epic"
  | .improvement => "Improvement"
  | .bug => "Bug"
  | .task => "Task"

def CloseReason.serial : CloseReason → String
  | .done => "Done"
  | .duplicate => "Duplicate"
  | .wontFix => "WontFix"

def IssueStatus.serial : IssueStatus → DValue
  | .open => .vstr "Open"
  | .assigned => .vstr "Assigned"
  | .blocked => .vstr "Blocked"
  | .closed r => .vobj [("Closed", .vobj [("reason", .vstr r.serial)])]

def Priority.serial : Priority → String
  | .critical => "Critical"
  | .high => "High"
  | .medium => "Medium"
  | .low => "Low"

/-- An optional field contributes its binding when set and nothing when
unset. -/
def optField (name : String) (v : Option DValue) : List (String × DValue) :=
  match v with
  | none => []
  | some value => [(name, value)]

/-- Serialize an `IssueInfo` to its field map. -/
def IssueInfo.toMap (i : IssueInfo) : DValue :=
  .vobj ([("title", .vstr i.title), ("kind", .vstr i.kind.serial)]
    ++ optField "description" (i.description.map .vstr)
    ++ [("status", i.status.serial), ("project", .vstr i.project)]
    ++ optField "priority" (i.priority.map fun p => .vstr p.serial)
    ++ [("assignee", .vstr i.assignee)])

/-- Serialize a `ProjectInfo` to its field map. -/
def ProjectInfo.toMap (p : ProjectInfo) : DValue :=
  .vobj (optField "description" (p.description.map .vstr)
    ++ [("owner", .vstr p.owner)]
    ++ optField "name" (p.name.map .vstr))

/-- Serialize a `CommentInfo` to its field map. -/
def CommentInfo.toMap (c : CommentInfo) : DValue :=
  .vobj [("issue", .vstr c.issue), ("created_at", .vnat c.createdAt),
    ("content", .vstr c.content), ("author", .vstr c.author)]

def IssueKind.deserial (s : String) : Option IssueKind :=
  if s = "Epic" then some .epic
  else if s = "Improvement" then some .improvement
  else if s = "Bug" then some .bug
  else if s = "Task" then some .task
  else none

def CloseReason.deserial (s : String) : Option CloseReason :=
  if s = "Done" then some .done
  else if s = "Duplicate" then some .duplicate
  else if s = "WontFix" then some .wontFix
  else none

def Priority.deserial (s : String) : Option Priority :=
  if s = "Critical" then some .critical
  else if s = "High" then some .high
  else if s = "Medium" then some .medium
  else if s = "Low" then some .low
  else none

def IssueStatus.deserial : DValue → Option IssueStatus
  | .vstr "Open" => some .open
  | .vstr "Assigned" => some .assigned
  | .vstr "Blocked" => some .blocked
  | .vobj [("Closed", .vobj [("reason", .vstr r)])] =>
    (CloseReason.deserial r).map .closed
  | _ => none

/-- Deserialize a field map back into an `IssueInfo` — the
`get::<IssueInfo>` view of a stored record. -/
def IssueInfo.fromMap (m : DValue) : Option IssueInfo := do
  let obj ← m.asObject
  let title ← (objGet obj "title").bind DValue.asString
  let kind ← ((objGet obj "kind").bind DValue.asString).bind IssueKind.deserial
  let description :=
    match (objGet obj "description").bind DValue.asString with
    | some d => some d
    | none => none
  let status ← (objGet obj "status").bind IssueStatus.deserial
  let project ← (objGet obj "project").bind DValue.asString
  let priority :=
    match ((objGet obj "priority").bind DValue.asString).bind Priority.deserial with
    | some p => some p
    | none => none
  let assignee ← (objGet obj "assignee").bind DValue.asString
  pure ⟨title, kind, description, status, project, priority, assignee⟩

/-! ## The store and the execution engine (crates/storage/redb/src/lib.rs) -/

/-- The four tables of the store.  `meta` doubles as the users table:
`get_table(EntityType::Users)` returns `TABLE_META`. -/
structure Db where
  projects : Table
  issues : Table
  comments : Table
  meta : Table

def emptyDb : Db := ⟨[], [], [], []⟩

def tableOf (db : Db) : EntityType → Table
  | .users => db.meta
  | .projects => db.projects
  | .issues => db.issues
  | .comments => db.comments

/-- Model of `table.get(key)`. -/
def tableGet (t : Table) (k : String) : Option DValue :=
  match t with
  | [] => none
  | (k', v) :: r => if k' = k then some v else tableGet r k

/-- Model of `table.insert(key, value)` — a B-tree insert: replace the value under an
existing key, otherwise insert at the key's ordered position. -/
def tableInsert (k : String) (v : DValue) : Table → Table
  | [] => [(k, v)]
  | (k', v') :: rest =>
    match strOrd k k' with
    | .lt => (k, v) :: (k', v') :: rest
    | .eq => (k, v) :: rest
    | .gt => (k', v') :: tableInsert k v rest

/-- Model of `table.remove(key)`. -/
def tableRemove (k : String) (t : Table) : Table :=
  t.filter fun kv => !(kv.1 == k)

/-- Model of `Database::exists` — iterate the table and test each key against the id
(an absent table iterates as empty). -/
def tableHasKey (t : Table) (k : String) : Bool :=
  t.any fun kv => kv.1 == k

/-- Model of `table.range(min..max).count()` — the number of keys in the half-open
byte-order interval `[min, max)`. -/
def rangeCount (lo hi : String) (t : Table) : Nat :=
  (t.filter fun kv => strLe lo kv.1 && strLt kv.1 hi).length

/-- The number of keys that begin with the given prefix — the count the
specification's invariant I3 speaks about. -/
def prefixCount (pre : String) (t : Table) : Nat :=
  (t.filter fun kv => strStartsWith kv.1 pre).length

/-- Model of `Database::get_next_issue_id`: one more than the number of issue keys in
`range("{project}#" .. "{project}#{u64::MAX}")`, the bounds compared as
strings.  (`u64::MAX` prints as 18446744073709551615.) -/
def getNextIssueId (issues : Table) (project : String) : Nat :=
  rangeCount (project ++ "#") (project ++ "#18446744073709551615") issues + 1

/-- Errors of the execution engine (`BackendError`, crates/core/src/lib.rs). -/
inductive BackendError where
  | permissionDenied (msg : String)
  | projectAlreadyExists (id : String)
  | userNotFound (id : String)
  | itemNotFound (kind id : String)
  | issueAlreadyClosed (id : String) (reason : CloseReason)
  | fieldNotFound (name : String)
  | invalidId (raw : String)
  | notImplemented
  | notSupported
  | implementationSpecific (msg : String)
deriving DecidableEq

/-- Model of `SingleUserUserProvider::get_user` (crates/core/src/lib.rs, lines
167–177): only the tokens `"<default>"` and `"default"` resolve, to the user
id `"default"`; every other token — including the empty token the engine
passes — resolves to `None`. -/
def singleUserGetUser (token : String) : Option String :=
  if token = "<default>" ∨ token = "default" then some "default" else none

/-- Model of `CREATE PROJECT` (crates/storage/redb/src/lib.rs, lines 350–378).
`providerUser` is the principal the engine's `user_provider.get_user("")`
call resolves to, used when no `WITH OWNER` was given; the resolved owner is
then required to exist in the users (`meta`) table. -/
def createProject (db : Db) (providerUser : String) (projectId : String)
    (name description owner : Option String) :
    Except BackendError (Db × Nat) :=
  if tableHasKey db.projects projectId then
    .error (.projectAlreadyExists projectId)
  else
    let resolvedOwner := owner.getD providerUser
    if !(tableHasKey db.meta resolvedOwner) then
      .error (.userNotFound resolvedOwner)
    else
      let info : ProjectInfo := ⟨description, resolvedOwner, name⟩
      .ok ({ db with projects := tableInsert projectId info.toMap db.projects }, 1)

/-- Model of `CREATE ISSUE OF KIND … IN … WITH …` (crates/storage/redb/src/lib.rs,
lines 379–418): require the project to exist, resolve the assignee like the
owner, number the issue with `get_next_issue_id` and insert it, `Open`, under
`"{project}#{issue_number}"`. -/
def createIssue (db : Db) (providerUser : String) (project : String)
    (kind : IssueKind) (title : String) (description : Option String)
    (priority : Option Priority) (assignee : Option String) :
    Except BackendError (Db × Nat) :=
  if !(tableHasKey db.projects project) then
    .error (.itemNotFound "projects" project)
  else
    let resolvedAssignee := assignee.getD providerUser
    let issueNumber := getNextIssueId db.issues project
    let info : IssueInfo :=
      ⟨title, kind, description, .open, project, priority, resolvedAssignee⟩
    let issues' := tableInsert (project ++ "#" ++ toString issueNumber) info.toMap db.issues
    .ok ({ db with issues := issues' }, 1)

/-- The `SELECT * FROM comments WHERE issue = '<id>'` statement the delete
cascade issues. -/
def cascadeSelect (id : String) : SelectStatement :=
  ⟨.all, .comments, some (.comparison "issue" .equal (.string id)), none, none, none⟩

/-- Model of `Database::delete_comment`: remove the comment row and count it. -/
def deleteComment (db : Db) (id : String) : Db × Nat :=
  ({ db with comments := tableRemove id db.comments }, 1)

/-- Model of `Database::delete_issue`: remove the issue row, then select the comments
whose `issue` field equals the issue id (from the comments table) and remove
each of them; the returned count is the number of rows removed. -/
def deleteIssue (db : Db) (id : String) : Db × Nat :=
  let db1 : Db := { db with issues := tableRemove id db.issues }
  let victims := getAll db1.comments (cascadeSelect id)
  let db2 := victims.foldl
    (fun acc kv => { acc with comments := tableRemove kv.1 acc.comments }) db1
  (db2, 1 + victims.length)

/-- Model of `Database::delete_project` (crates/storage/redb/src/lib.rs, lines
159–182): remove the project row, then — exactly as the source does — run the
cascade query against the *comments* table with the filter
`issue = <project id>` and call `delete_issue` on the key of every match.
(When a record matches, the source additionally fails converting its field
map into an `IssueInfo`; no comment record can match, because a comment's
`issue` field holds an issue id `<project>#<n>`, never a bare project id.) -/
def deleteProject (db : Db) (id : String) : Db × Nat :=
  let db1 : Db := { db with projects := tableRemove id db.projects }
  let victims := getAll db1.comments (cascadeSelect id)
  victims.foldl
    (fun acc kv =>
      let step := deleteIssue acc.1 kv.1
      (step.1, acc.2 + step.2))
    (db1, 1)

/-- A single `FieldUpdate` of an `UPDATE` statement. -/
structure FieldUpdate where
  field : String
  value : IqlValue

/-- Model of `FieldUpdate::apply_to` (crates/iql-parser/src/ast.rs, lines 360–369):
reject with `FieldNotFound` when the record's field map does not contain the
field, otherwise overwrite it with the literal's facet value.
(`value.as_object_mut().unwrap()` panics on a non-object; stored records are
always objects.) -/
def FieldUpdate.applyTo (u : FieldUpdate) (value : DValue) :
    Except BackendError DValue :=
  let o := value.asObject.getD []
  if !(objContainsKey o u.field) then .error (.fieldNotFound u.field)
  else .ok (.vobj (objInsert o u.field u.value.toFacet))

/-- Apply the updates of an `UPDATE` statement left to right, stopping at the
first failure. -/
def applyUpdates (updates : List FieldUpdate) (value : DValue) :
    Except BackendError DValue :=
  match updates with
  | [] => .ok value
  | u :: rest => do
    let value' ← u.applyTo value
    applyUpdates rest value'

/-- Model of `Database::update` followed by the engine's `Ok(ExecutionResult::one())`:
read the record as a field map, apply every update, and only then write the
result back; an update failure leaves the table untouched. -/
def updateEntity (t : Table) (kind : String) (id : String)
    (updates : List FieldUpdate) : Except BackendError (Table × Nat) :=
  match tableGet t id with
  | none => .error (.itemNotFound kind id)
  | some m => do
    let m' ← applyUpdates updates m
    pure (tableInsert id m' t, 1)

/-- Model of `CLOSE ISSUE i [WITH reason]` (crates/storage/redb/src/lib.rs, lines
481–500): read the issue; reject an already-`Closed` issue with
`IssueAlreadyClosed` carrying its close reason (writing nothing); otherwise
set `status = Closed { reason: reason.unwrap_or_default() }`, rows = 1. -/
def closeIssue (db : Db) (issueId : String) (reason : Option CloseReason) :
    Except BackendError (Db × Nat) :=
  match tableGet db.issues issueId with
  | none => .error (.itemNotFound "ISSUE" issueId)
  | some m =>
    match IssueInfo.fromMap m with
    | none => .error (.implementationSpecific "deserialization failed")
    | some info =>
      match info.status with
      | .closed r => .error (.issueAlreadyClosed issueId r)
      | _ =>
        let newInfo := { info with status := IssueStatus.closed (reason.getD .done) }
        .ok ({ db with issues := tableInsert issueId newInfo.toMap db.issues }, 1)

/-- Model of `REOPEN ISSUE i` (crates/storage/redb/src/lib.rs, lines 501–515): read
the issue; when it is not `Closed` return rows = 0 without writing; when it
is `Closed` set `status = Open`, rows = 1. -/
def reopenIssue (db : Db) (issueId : String) :
    Except BackendError (Db × Nat) :=
  match tableGet db.issues issueId with
  | none => .error (.itemNotFound "ISSUE" issueId)
  | some m =>
    match IssueInfo.fromMap m with
    | none => .error (.implementationSpecific "deserialization failed")
    | some info =>
      match info.status with
      | .closed _ =>
        let newInfo := { info with status := IssueStatus.open }
        .ok ({ db with issues := tableInsert issueId newInfo.toMap db.issues }, 1)
      | _ => .ok (db, 0)

/-! ## The parser for `CREATE PROJECT` (crates/iql-parser/src/parser.rs)

The lexer (crates/iql-parser/src/lexer.rs) matches keywords
case-insensitively and before identifiers, so every spelling of `OWNER`,
`NAME`, `DESCRIPTION`, `WITH`, `PROJECT` reaches the parser as its keyword
token; the token subset below covers the tokens the `CREATE PROJECT` rule can
see.  Token positions, which only decorate errors, are not tracked. -/

inductive Token where
  | create
  | project
  | withTok
  | name
  | description
  | owner
  | email
  | title
  | priority
  | assignee
  | user
  | issue
  | comment
  | identifier (s : String)
  | str (s : String)
  | eof
deriving DecidableEq

/-- Model of `Token::to_field_name` — the keywords the parser re-admits where an
identifier-like name is expected, mapped to their lowercase spelling. -/
def Token.toFieldName : Token → Option String
  | .identifier s => some s
  | .email => some "email"
  | .name => some "name"
  | .title => some "title"
  | .description => some "description"
  | .priority => some "priority"
  | .assignee => some "assignee"
  | .owner => some "owner"
  | .user => some "user"
  | .project => some "project"
  | .issue => some "issue"
  | .comment => some "comment"
  | _ => none

/-- The parse errors the `CREATE PROJECT` rule can produce (positions
omitted; `found` carries the offending token). -/
inductive ParseError where
  | unexpectedEof
  | unexpectedToken (expected : String) (found : Token)
  | missingClause (clause : String)
deriving DecidableEq

/-- The fields of a parsed `CreateStatement::Project`. -/
structure CreateProjectData where
  projectId : String
  name : Option String
  description : Option String
  owner : Option String
deriving DecidableEq

/-- Model of `Parser::parse_identifier` on a single token: an `Identifier` token, or
any keyword that `to_field_name` re-admits, yields the identifier. -/
def identifierValue (t : Token) : Option String := t.toFieldName

/-- Model of `Parser::parse_string_value` on a single token: a `String` or an
`Identifier` token yields its payload. -/
def stringValue (t : Token) : Option String :=
  match t with
  | .str s => some s
  | .identifier s => some s
  | _ => none

/-- The state threaded through the `WITH` loop of `parse_create_project`:
the three optional fields and the `started` flag, which begins `true` and is
meant to be cleared by every arm that consumed a key.  Exactly as in the
source (parser.rs lines 146–188), the `Token::Owner` arm does *not* clear
the flag; the `Identifier("owner")` fallback arm does, but the lexer never
produces that token for any spelling of `owner`.  Each arm consumes its key
token and then one value token (via `parse_string_value` for NAME and
DESCRIPTION, `parse_identifier` for OWNER). -/
def parseProjectWithLoop :
    List Token → Option String → Option String → Option String → Bool →
    Except ParseError (Option String × Option String × Option String × Bool × List Token)
  | .name :: t :: rest, _, d, o, _ =>
    (match stringValue t with
    | some s => parseProjectWithLoop rest (some s) d o false
    | none => .error (.unexpectedToken "string literal for <NAME>" t))
  | .description :: t :: rest, n, _, o, _ =>
    (match stringValue t with
    | some s => parseProjectWithLoop rest n (some s) o false
    | none => .error (.unexpectedToken "string literal for <DESCRIPTION>" t))
  | .owner :: t :: rest, n, d, _, started =>
    (match identifierValue t with
    | some s => parseProjectWithLoop rest n d (some s) started
    | none => .error (.unexpectedToken "identifier for <OWNER>" t))
  | .identifier id :: t :: rest, n, d, o, started =>
    if id.toLower = "name" then
      match stringValue t with
      | some s => parseProjectWithLoop rest (some s) d o false
      | none => .error (.unexpectedToken "string literal for <NAME>" t)
    else if id.toLower = "description" then
      match stringValue t with
      | some s => parseProjectWithLoop rest n (some s) o false
      | none => .error (.unexpectedToken "string literal for <DESCRIPTION>" t)
    else if id.toLower = "owner" then
      match identifierValue t with
      | some s => parseProjectWithLoop rest n d (some s) false
      | none => .error (.unexpectedToken "identifier for <OWNER>" t)
    else .ok (n, d, o, started, .identifier id :: t :: rest)
  | ts, n, d, o, started => .ok (n, d, o, started, ts)

/-- Model of `Parser::parse_create_project` (parser.rs lines 138–196), entered at the
`PROJECT` token: parse the project id; when a `WITH` follows, run the
key/value loop and reject with `MissingClause` when the `started` flag was
never cleared. -/
def parseCreateProject (ts : List Token) :
    Except ParseError (CreateProjectData × List Token) :=
  match ts with
  | .project :: t :: rest =>
    (match identifierValue t with
    | none => .error (.unexpectedToken "identifier for <PROJECT_ID>" t)
    | some projectId =>
      match rest with
      | .withTok :: rest' =>
        (match parseProjectWithLoop rest' none none none true with
        | .error e => .error e
        | .ok (n, d, o, started, remaining) =>
          if started then
            .error (.missingClause "at least one of NAME, DESCRIPTION, or OWNER")
          else .ok (⟨projectId, n, d, o⟩, remaining))
      | _ => .ok (⟨projectId, none, none, none⟩, rest))
  | t :: _ => .error (.unexpectedToken "Project" t)
  | [] => .error .unexpectedEof

/-! ## The claims -/

/-! ### C1 — per-project issue numbering

`get_next_issue_id` counts the keys in the *string* range
`"{p}#" .. "{p}#18446744073709551615"`.  String order compares the digits of
the numeric suffix character by character, so `"p#2" > "p#18446744073709551615"`
and every issue whose number does not begin with a digit below the bound's
first digits falls outside the range.  Concretely: with issues `p#1` and
`p#2` stored, the range contains only `p#1`, the next id is computed as 2
instead of 3, and the third `CREATE ISSUE` silently overwrites `p#2`. -/

def c1Issue : IssueInfo := ⟨"boom", .bug, none, .open, "p", none, "default"⟩

/-- The store after two successful `CREATE ISSUE … IN p` statements. -/
def c1Db : Db :=
  ⟨[("p", (ProjectInfo.mk none "default" none).toMap)],
   [("p#1", c1Issue.toMap), ("p#2", c1Issue.toMap)], [], [("default", .vnull)]⟩

/-- Claim C1: after k successful creates the kth issue is stored under
`p#k`, and the number chosen always equals 1 + the count of issues whose id
starts with `p#`.  The code violates this at k = 3: with `p#1` and `p#2`
present it chooses 2 (not 1 + 2 = 3), and the third create leaves the issues
table with the same two keys, overwriting `p#2`. -/
theorem issue_numbering_c1 :
    getNextIssueId c1Db.issues "p" = 2
  ∧ 1 + prefixCount "p#" c1Db.issues = 3
  ∧ ((createIssue c1Db "default" "p" .bug "boom" none none none).map
      fun r => r.1.issues.map Prod.fst) = .ok ["p#1", "p#2"]
  ∧ getNextIssueId [] "p" = 1
  ∧ getNextIssueId [("p#1", c1Issue.toMap)] "p" = 2 :=
  ⟨rfl, rfl, rfl, rfl, rfl⟩

/-! ### C2 — DELETE PROJECT cascade

`delete_project` removes the project row and then runs its cascade query
against the *comments* table with the filter `issue = <project id>`.  A
comment's `issue` field holds an issue id `<project>#<n>`, never a bare
project id, so the query finds nothing: no issue and no comment is ever
cascade-deleted, and `rows` is always 1. -/

/-- A store with project `p`, one issue `p#1` (n = 1) and no comments. -/
def c2Db : Db :=
  ⟨[("p", (ProjectInfo.mk none "default" none).toMap)],
   [("p#1", c1Issue.toMap)], [], [("default", .vnull)]⟩

/-- Claim C2: `DELETE PROJECT p` removes the project row, all issue rows and
their comment rows, returning rows = 1 + n + Σmᵢ.  On `c2Db` (n = 1, no
comments) the claim demands rows = 2 and an empty issues table; the code
returns rows = 1 and leaves `p#1` in place. -/
theorem delete_project_cascade_c2 :
    (deleteProject c2Db "p").2 = 1
  ∧ (deleteProject c2Db "p").1.projects = []
  ∧ (deleteProject c2Db "p").1.issues = [("p#1", c1Issue.toMap)]
  ∧ (deleteProject c2Db "p").1.comments = [] :=
  ⟨rfl, rfl, rfl, rfl⟩

/-! ### C3 — CREATE PROJECT against a fresh store

The engine resolves the owner to `user_provider.get_user("")` and then
requires the resolved owner to exist in the users (`meta`) table.  A fresh
store has an empty `meta` table, so the existence test fails for every
possible owner and the statement is rejected with `UserNotFound` — it never
returns rows = 1.  (Independently, the single-user provider of
crates/core/src/lib.rs resolves the empty token to `None`, not to the
configured id `default`.) -/

/-- Claim C3: against a fresh store with the single-user provider,
`CREATE PROJECT backend WITH name 'Backend'` succeeds with rows = 1 and
stores `display = "Backend"`, `owner = "default"`.  The code instead rejects
with `UserNotFound` for every principal the provider could return (in
particular `"default"`), and `get_user("")` is `None` to begin with. -/
theorem create_project_fresh_store_c3 :
    (∀ providerUser,
      createProject emptyDb providerUser "backend" (some "Backend") none none
        = .error (.userNotFound providerUser))
  ∧ singleUserGetUser "" = none :=
  ⟨fun _ => rfl, rfl⟩

/-! ### C4 — CLOSE and REOPEN -/

/-- Claim C4: for every existing issue, `CLOSE` of an already-Closed issue
returns `IssueAlreadyClosed` carrying its close reason and performs no write;
`REOPEN` of a non-Closed issue returns rows = 0 with the store unchanged;
`REOPEN` of a Closed issue sets its status to `Open` and returns rows = 1. -/
theorem close_reopen_c4 (db : Db) (issueId : String) (m : DValue)
    (info : IssueInfo) (reason : Option CloseReason)
    (hget : tableGet db.issues issueId = some m)
    (hdes : IssueInfo.fromMap m = some info) :
    (∀ r, info.status = .closed r →
      closeIssue db issueId reason = .error (.issueAlreadyClosed issueId r))
  ∧ ((∀ r, info.status ≠ .closed r) →
      reopenIssue db issueId = .ok (db, 0))
  ∧ (∀ r, info.status = .closed r →
      reopenIssue db issueId
        = .ok ({ db with issues := tableInsert issueId ({ info with status := .open }).toMap db.issues }, 1)) := by
  refine ⟨fun r hr => ?_, fun h => ?_, fun r hr => ?_⟩
  · simp only [closeIssue, hget, hdes, hr]
  · cases hst : info.status
    case closed r => exact absurd hst (h r)
    all_goals simp only [reopenIssue, hget, hdes, hst]
  · simp only [reopenIssue, hget, hdes, hr]

def c4Closed : IssueInfo := ⟨"t", .bug, none, .closed .wontFix, "p", none, "a"⟩

def c4Open : IssueInfo := ⟨"t2", .task, none, .open, "p", none, "a"⟩

def c4Db : Db :=
  ⟨[("p", (ProjectInfo.mk none "a" none).toMap)],
   [("p#1", c4Closed.toMap), ("p#2", c4Open.toMap)], [], [("a", .vnull)]⟩

/-- Witness for C4 at a concrete store holding the closed issue `p#1`
(reason `WontFix`) and the open issue `p#2`. -/
theorem close_reopen_c4_witness :
    closeIssue c4Db "p#1" none = .error (.issueAlreadyClosed "p#1" .wontFix)
  ∧ reopenIssue c4Db "p#2" = .ok (c4Db, 0)
  ∧ reopenIssue c4Db "p#1"
      = .ok ({ c4Db with issues := tableInsert "p#1" ({ c4Closed with status := .open }).toMap c4Db.issues }, 1) :=
  ⟨(close_reopen_c4 c4Db "p#1" c4Closed.toMap c4Closed none rfl rfl).1 .wontFix rfl,
   (close_reopen_c4 c4Db "p#2" c4Open.toMap c4Open none rfl rfl).2.1
     (fun r h => by cases h),
   (close_reopen_c4 c4Db "p#1" c4Closed.toMap c4Closed none rfl rfl).2.2 .wontFix rfl⟩

/-! ### C7 — the order of the SELECT stages -/

/-- The SELECT evaluation order exactly as the specification states it:
iterate the table in key order, apply OFFSET and then LIMIT to the raw
iteration, then sort by the ORDER BY field if one is present, then keep only
the records matching the WHERE filter. -/
def selectSpecOrder (table : Table) (stmt : SelectStatement) : Table :=
  let afterOffset := table.drop (stmt.offset.getD 0)
  let afterLimit := afterOffset.take (stmt.limit.getD (2 ^ 64 - 1))
  let afterSort :=
    match stmt.orderBy with
    | none => afterLimit
    | some ob => sortByField ob.field afterLimit
  afterSort.filter fun kv =>
    match stmt.filter with
    | none => true
    | some filterExpr => filterExpr.matches kv.1 kv.2

/-- Claim C7: for every SELECT, `get_all` returns exactly the
offset-then-limit window of the raw key-order iteration, then sorted (if
ORDER BY), then filtered (if WHERE) — offset/limit are applied *before*
filter and sort. -/
theorem select_stage_order_c7 (table : Table) (stmt : SelectStatement) :
    getAll table stmt = selectSpecOrder table stmt := rfl

/-! ### C8 — comparisons against a missing field

`matches` looks the field up in the record's field map and returns `false`
when it is absent — before `compare_values` is ever consulted, so the result
is `false` for *every* operator, `!=` included.  (When the field is the
special name `id` the map is not consulted at all; the claim presupposes a
map lookup, so the amended statement is restricted to fields other than
`id`.) -/

/-- Counterexample to C8 as stated: `title != 'a'` on a record whose map
lacks `title` evaluates to `false`, where the claim demands `true` for a
convertible literal under `!=`. -/
theorem comparison_missing_field_c8_counterexample :
    FilterExpression.matches (.comparison "title" .notEqual (.string "a")) "p#1"
      (.vobj [("owner", .vstr "x")]) = false := rfl

/-- Claim C8 (amended): for every comparison whose field is not `id` and is
absent from the record's field map, `matches` returns `false` for every
operator — including `!=`. -/
theorem comparison_missing_field_c8 (field : String) (op : ComparisonOp)
    (v : IqlValue) (id : String) (obj : List (String × DValue))
    (hfield : field ≠ "id") (hmiss : objGet obj field = none) :
    FilterExpression.matches (.comparison field op v) id (.vobj obj) = false := by
  simp only [FilterExpression.matches, DValue.asObject]
  rw [if_neg hfield, hmiss]

/-- Witness for C8 at the record `{owner: "x"}` and the comparison
`title = 'a'`. -/
theorem comparison_missing_field_c8_witness :
    FilterExpression.matches (.comparison "title" .equal (.string "a")) "p#1"
      (.vobj [("owner", .vstr "x")]) = false :=
  comparison_missing_field_c8 "title" .equal (.string "a") "p#1"
    [("owner", .vstr "x")] (by decide) rfl

/-! ### C9 — CREATE PROJECT … WITH OWNER

In `parse_create_project` the `Token::Owner` arm of the `WITH` loop stores
the owner but never clears the `started` flag (every other arm does, and the
parser's own error message lists OWNER among the keys that satisfy the
clause), so a `WITH` clause consisting only of `OWNER <ident>` is rejected
with `MissingClause` — for every spelling of `owner`, since the lexer
tokenizes them all as `Token::Owner`. -/

/-- Claim C9: `CREATE PROJECT p WITH OWNER alice` should parse into a
create-project statement with `owner = Some("alice")`.  The parser instead
answers `MissingClause` — even though the owner *was* parsed, as the second
conjunct shows by prepending `NAME 'N'`. -/
theorem create_project_with_owner_c9 :
    parseCreateProject
        [.project, .identifier "p", .withTok, .owner, .identifier "alice", .eof]
      = .error (.missingClause "at least one of NAME, DESCRIPTION, or OWNER")
  ∧ parseCreateProject
        [.project, .identifier "p", .withTok, .name, .str "N",
         .owner, .identifier "alice", .eof]
      = .ok (⟨"p", some "N", none, some "alice"⟩, [.eof]) :=
  ⟨rfl, rfl⟩

/-! ### C10 — the ORDER BY direction is ignored -/

/-- Claim C10: `get_all` never reads the ORDER BY direction, so two SELECTs
differing only in `ASC` versus `DESC` produce identical output. -/
theorem order_direction_ignored_c10 (table : Table) (cols : Columns)
    (ent : EntityType) (fl : Option FilterExpression) (lim off : Option Nat)
    (f : String) :
    getAll table ⟨cols, ent, fl, some ⟨f, .asc⟩, lim, off⟩
      = getAll table ⟨cols, ent, fl, some ⟨f, .desc⟩, lim, off⟩ := rfl

/-! ### C5 — UPDATE and declared attributes

`FieldUpdate::apply_to` checks the field against the *current field map* of
the record (`contains_key`), not against the declared attributes of the
record type.  Serialization omits optional attributes that are unset, so a
declared optional attribute of an unset record — `priority` of an issue
created without one — is rejected with `FieldNotFound` exactly like an
unknown field. -/

/-- An issue as `CREATE ISSUE` stores it without a priority: its field map
has no `priority` key although `priority` is a declared attribute of
`IssueInfo`. -/
def c5Issue : IssueInfo := ⟨"fix login", .bug, none, .open, "p", none, "default"⟩

/-- Counterexample to C5 as stated: `priority` is a declared attribute of
the Issue record type, yet `UPDATE ISSUE p#1 SET priority = HIGH` on an
issue stored without a priority answers `FieldNotFound("priority")` instead
of overwriting with rows = 1. -/
theorem update_declared_field_c5_counterexample :
    "priority" ∈ issueInfoFields
  ∧ objGet (c5Issue.toMap.asObject.getD []) "priority" = none
  ∧ updateEntity [("p#1", c5Issue.toMap)] "ISSUE" "p#1"
      [⟨"priority", .priority .high⟩] = .error (.fieldNotFound "priority") :=
  ⟨by decide, rfl, rfl⟩

/-- Claim C5 (amended): for every `UPDATE T id SET f = v` on an existing
record, the field is checked against the record's *current field map* — the
declared attributes minus the unset optional ones.  If `f` is not a key of
the map the result is `FieldNotFound(f)` and the stored record is not
mutated (no write happens); if `f` is a key, the update overwrites it with
`v` and returns rows = 1. -/
theorem update_field_map_c5 (t : Table) (kind id : String) (f : String)
    (v : IqlValue) (m : List (String × DValue))
    (hget : tableGet t id = some (.vobj m)) :
    (objContainsKey m f = false →
      updateEntity t kind id [⟨f, v⟩] = .error (.fieldNotFound f))
  ∧ (objContainsKey m f = true →
      updateEntity t kind id [⟨f, v⟩]
        = .ok (tableInsert id (.vobj (objInsert m f v.toFacet)) t, 1)) := by
  constructor <;> intro h <;>
    simp only [updateEntity, hget, applyUpdates, FieldUpdate.applyTo,
      DValue.asObject, Option.getD, h, Bool.not_false, Bool.not_true,
      if_true, if_false, Except.bind] <;> rfl

/-- Witness for C5 at the stored issue `p#1`: updating the absent key
`priority` fails with `FieldNotFound`, updating the present key `title`
overwrites it with rows = 1. -/
theorem update_field_map_c5_witness :
    updateEntity [("p#1", c5Issue.toMap)] "ISSUE" "p#1"
      [⟨"priority", .priority .high⟩] = .error (.fieldNotFound "priority")
  ∧ updateEntity [("p#1", c5Issue.toMap)] "ISSUE" "p#1" [⟨"title", .string "z"⟩]
      = .ok (tableInsert "p#1"
          (.vobj (objInsert [("title", .vstr "fix login"), ("kind", .vstr "Bug"),
            ("status", .vstr "Open"), ("project", .vstr "p"),
            ("assignee", .vstr "default")] "title" (.vstr "z")))
          [("p#1", c5Issue.toMap)], 1) :=
  ⟨(update_field_map_c5 [("p#1", c5Issue.toMap)] "ISSUE" "p#1" "priority"
      (.priority .high)
      [("title", .vstr "fix login"), ("kind", .vstr "Bug"), ("status", .vstr "Open"),
       ("project", .vstr "p"), ("assignee", .vstr "default")] rfl).1 rfl,
   (update_field_map_c5 [("p#1", c5Issue.toMap)] "ISSUE" "p#1" "title"
      (.string "z")
      [("title", .vstr "fix login"), ("kind", .vstr "Bug"), ("status", .vstr "Open"),
       ("project", .vstr "p"), ("assignee", .vstr "default")] rfl).2 rfl⟩

/-! ### C6 — ORDER BY and records missing the field

The comparator returns `Greater` when the left record *has* the field and
the right one lacks it, so a stable ascending sort places the records
*missing* the field first — the opposite of what the claim states.  The
remaining lemmas of this section establish what the sort actually
guarantees: a missing-first partition that survives the WHERE filter,
tie-stability (records with equal field values keep their storage iteration
order), adjacent consistency with the partial order, and permutation of the
input. -/

theorem natCmp_self (a : Nat) : natCmp a a = .eq := by
  unfold natCmp
  rw [if_neg (lt_irrefl a), if_pos rfl]

theorem natCmp_eq {a b : Nat} (h : natCmp a b = .eq) : a = b := by
  unfold natCmp at h
  split_ifs at h with h1 h2
  exact h2

theorem natCmp_swap {a b : Nat} (h : natCmp a b = .gt) : natCmp b a = .lt := by
  unfold natCmp at h ⊢
  split_ifs at h with h1 h2
  rw [if_pos (by omega)]

theorem charCmp_self (a : Char) : charCmp a a = .eq := natCmp_self _

theorem charCmp_eq_swap {a b : Char} (h : charCmp a b = .eq) : charCmp b a = .eq := by
  unfold charCmp at h ⊢
  rw [natCmp_eq h]
  exact natCmp_self _

theorem charCmp_swap {a b : Char} (h : charCmp a b = .gt) : charCmp b a = .lt :=
  natCmp_swap h

theorem charsCmp_self (l : List Char) : charsCmp l l = .eq := by
  induction l with
  | nil => rfl
  | cons x xs ih => simp only [charsCmp, charCmp_self, ih]

theorem charsCmp_swap (a : List Char) :
    ∀ b, charsCmp a b = .gt → charsCmp b a = .lt := by
  induction a with
  | nil =>
    intro b h
    cases b <;> simp [charsCmp] at h
  | cons x xs ih =>
    intro b h
    cases b with
    | nil => simp [charsCmp]
    | cons y ys =>
      simp only [charsCmp] at h ⊢
      cases hc : charCmp x y with
      | eq =>
        rw [hc] at h
        rw [charCmp_eq_swap hc]
        exact ih ys h
      | lt => rw [hc] at h; simp at h
      | gt => rw [hc] at h; rw [charCmp_swap hc]

theorem strOrd_self (s : String) : strOrd s s = .eq := charsCmp_self _

theorem strOrd_swap {a b : String} (h : strOrd a b = .gt) : strOrd b a = .lt :=
  charsCmp_swap _ _ h

theorem vCompare_swap {a b : DValue} (h : vCompare a b = some .gt) :
    vCompare b a = some .lt := by
  cases a <;> cases b <;>
    simp only [vCompare, Option.some.injEq, reduceCtorEq] at h ⊢
  · exact strOrd_swap h
  · exact natCmp_swap h
  · exact natCmp_swap h
  · exact natCmp_swap h

theorem cmpOptVals_swap {a b : Option DValue} (h : cmpOptVals a b = .gt) :
    cmpOptVals b a ≠ .gt := by
  cases a with
  | none =>
    cases b <;> simp only [cmpOptVals] at h <;> exact absurd h (by decide)
  | some v1 =>
    cases b with
    | none => simp only [cmpOptVals]; decide
    | some v2 =>
      simp only [cmpOptVals] at h ⊢
      cases hv : vCompare v1 v2 with
      | none => rw [hv] at h; exact absurd h (by decide)
      | some o =>
        rw [hv] at h
        simp only [Option.getD_some] at h
        rw [h] at hv
        rw [vCompare_swap hv]
        decide

theorem orderByCmp_swap {f : String} {a b : String × DValue}
    (h : orderByCmp f a b = .gt) : orderByCmp f b a ≠ .gt :=
  cmpOptVals_swap h

/-- Does the record's field map carry the ORDER BY field? -/
def hasFieldRec (field : String) (kv : String × DValue) : Bool :=
  (getFieldVal field kv).isSome

theorem cmp_missing_ne_gt {f : String} {x : String × DValue}
    (hx : getFieldVal f x = none) (y : String × DValue) :
    orderByCmp f x y ≠ .gt := by
  unfold orderByCmp
  rw [hx]
  cases getFieldVal f y <;> simp [cmpOptVals]

theorem cmp_has_missing_gt {f : String} {x y : String × DValue}
    (hx : hasFieldRec f x = true) (hy : getFieldVal f y = none) :
    orderByCmp f x y = .gt := by
  unfold orderByCmp
  unfold hasFieldRec at hx
  rw [hy]
  cases h : getFieldVal f x with
  | none => rw [h] at hx; simp at hx
  | some v => simp [cmpOptVals]

/-- The ordering the claim asserts: every record lacking the field comes
after every record having it. -/
def missingAfter (field : String) : Table → Bool
  | [] => true
  | kv :: rest =>
    if hasFieldRec field kv then missingAfter field rest
    else rest.all fun e => !(hasFieldRec field e)

/-- The ordering the code produces: every record lacking the field comes
before every record having it. -/
def missingFirst (field : String) : Table → Bool
  | [] => true
  | kv :: rest =>
    if hasFieldRec field kv then rest.all (hasFieldRec field)
    else missingFirst field rest

theorem insertBy_front {cmp : α → α → Ordering} {x : α}
    (h : ∀ y, cmp x y ≠ .gt) (l : List α) : insertBy cmp x l = x :: l := by
  cases l with
  | nil => rfl
  | cons y ys => simp only [insertBy, if_neg (h y)]

theorem all_insertBy {p : α → Bool} {cmp : α → α → Ordering} {x : α}
    (hx : p x = true) :
    ∀ {l : List α}, l.all p = true → (insertBy cmp x l).all p = true := by
  intro l
  induction l with
  | nil => intro _; simp [insertBy, hx]
  | cons y ys ih =>
    intro hl
    simp only [List.all_cons, Bool.and_eq_true] at hl
    simp only [insertBy]
    split
    · simp only [List.all_cons, Bool.and_eq_true]
      exact ⟨hl.1, ih hl.2⟩
    · simp only [List.all_cons, Bool.and_eq_true]
      exact ⟨hx, hl.1, hl.2⟩

theorem all_has_missingFirst {f : String} :
    ∀ {l : Table}, l.all (hasFieldRec f) = true → missingFirst f l = true := by
  intro l
  induction l with
  | nil => intro _; rfl
  | cons kv rest _ =>
    intro h
    simp only [List.all_cons, Bool.and_eq_true] at h
    simp only [missingFirst, if_pos h.1]
    exact h.2

theorem missingFirst_insertBy {f : String} (x : String × DValue) :
    ∀ {l : Table}, missingFirst f l = true →
      missingFirst f (insertBy (orderByCmp f) x l) = true := by
  intro l
  induction l with
  | nil =>
    intro _
    cases hx : hasFieldRec f x <;>
      simp [insertBy, missingFirst, hx]
  | cons y ys ih =>
    intro h
    by_cases hhx : hasFieldRec f x = true
    · -- x has the field
      simp only [insertBy]
      split
      next hxy =>
        -- descend past y
        simp only [missingFirst] at h ⊢
        by_cases hhy : hasFieldRec f y = true
        · rw [if_pos hhy] at h ⊢
          exact all_insertBy hhx h
        · rw [if_neg hhy] at h ⊢
          exact ih h
      next hxy =>
        -- x lands in front of y; y must have the field too
        by_cases hhy : hasFieldRec f y = true
        · simp only [missingFirst, if_pos hhx, List.all_cons, Bool.and_eq_true]
          refine ⟨hhy, ?_⟩
          simp only [missingFirst, if_pos hhy] at h
          exact h
        · exfalso
          apply hxy
          apply cmp_has_missing_gt hhx
          unfold hasFieldRec at hhy
          cases hgy : getFieldVal f y with
          | none => rfl
          | some v => rw [hgy] at hhy; simp at hhy
    · -- x lacks the field: it always goes to the front
      have hx0 : getFieldVal f x = none := by
        unfold hasFieldRec at hhx
        cases hgx : getFieldVal f x with
        | none => rfl
        | some v => rw [hgx] at hhx; simp at hhx
      rw [insertBy_front (fun z => cmp_missing_ne_gt hx0 z)]
      simp only [missingFirst, if_neg hhx]
      exact h

theorem missingFirst_sortBy (f : String) (l : Table) :
    missingFirst f (sortByField f l) = true := by
  unfold sortByField
  induction l with
  | nil => rfl
  | cons x xs ih => exact missingFirst_insertBy x ih

theorem all_filter {p q : α → Bool} :
    ∀ {l : List α}, l.all p = true → (l.filter q).all p = true := by
  intro l
  induction l with
  | nil => intro _; rfl
  | cons x xs ih =>
    intro h
    simp only [List.all_cons, Bool.and_eq_true] at h
    simp only [List.filter]
    split
    · simp only [List.all_cons, Bool.and_eq_true]
      exact ⟨h.1, ih h.2⟩
    · exact ih h.2

theorem missingFirst_filter {f : String} {p : String × DValue → Bool} :
    ∀ {l : Table}, missingFirst f l = true →
      missingFirst f (l.filter p) = true := by
  intro l
  induction l with
  | nil => intro _; rfl
  | cons kv rest ih =>
    intro h
    simp only [missingFirst] at h
    simp only [List.filter]
    split
    · by_cases hk : hasFieldRec f kv = true
      · rw [if_pos hk] at h
        simp only [missingFirst, if_pos hk]
        exact all_filter h
      · rw [if_neg hk] at h
        simp only [missingFirst, if_neg hk]
        exact ih h
    · by_cases hk : hasFieldRec f kv = true
      · rw [if_pos hk] at h
        exact all_has_missingFirst (all_filter h)
      · rw [if_neg hk] at h
        exact ih h

/-- Equality of optional field values — the tie relation of the sort. -/
def optValBeq : Option DValue → Option DValue → Bool
  | none, none => true
  | some a, some b => dvalBeq a b
  | _, _ => false

/-- Records tied with a reference record `kv0` on the ORDER BY field. -/
def fieldTie (f : String) (kv0 kv : String × DValue) : Bool :=
  optValBeq (getFieldVal f kv0) (getFieldVal f kv)

theorem dvalBeq_cmp_eq {w a b : DValue} (ha : dvalBeq w a = true)
    (hb : dvalBeq w b = true) : (vCompare a b).getD .eq = .eq := by
  cases w <;> cases a <;> simp [dvalBeq] at ha <;>
    cases b <;> simp [dvalBeq] at hb <;>
    simp_all [vCompare, strOrd_self, natCmp_self]

theorem fieldTie_cmp_ne_gt {f : String} {kv0 x z : String × DValue}
    (hx : fieldTie f kv0 x = true) (hz : fieldTie f kv0 z = true) :
    orderByCmp f x z ≠ .gt := by
  unfold fieldTie at hx hz
  unfold orderByCmp
  cases h0 : getFieldVal f kv0 with
  | none =>
    rw [h0] at hx hz
    cases hgx : getFieldVal f x <;> rw [hgx] at hx <;>
      try simp [optValBeq] at hx
    cases hgz : getFieldVal f z <;> rw [hgz] at hz <;>
      try simp [optValBeq] at hz
    simp [cmpOptVals]
  | some w =>
    rw [h0] at hx hz
    cases hgx : getFieldVal f x <;> rw [hgx] at hx <;>
      try simp [optValBeq] at hx
    cases hgz : getFieldVal f z <;> rw [hgz] at hz <;>
      try simp [optValBeq] at hz
    simp only [cmpOptVals, optValBeq] at hx hz ⊢
    rw [dvalBeq_cmp_eq hx hz]
    decide

theorem filter_insertBy_tie (f : String) (kv0 x : String × DValue) :
    ∀ l : Table,
      (insertBy (orderByCmp f) x l).filter (fieldTie f kv0)
        = (if fieldTie f kv0 x then [x] else []) ++ l.filter (fieldTie f kv0) := by
  intro l
  induction l with
  | nil =>
    simp only [insertBy, List.filter]
    split <;> simp_all
  | cons y ys ih =>
    simp only [insertBy]
    split
    next hxy =>
      by_cases htx : fieldTie f kv0 x = true
      · have hty : fieldTie f kv0 y = false := by
          cases hy : fieldTie f kv0 y
          · rfl
          · exact absurd hxy (fieldTie_cmp_ne_gt htx hy)
        simp only [List.filter, hty, if_pos htx, ih, htx]
        try simp
      · simp only [Bool.not_eq_true] at htx
        simp only [List.filter, ih, htx]
        try simp
    next hxy =>
      simp only [List.filter]
      split <;> simp_all [List.filter]

theorem filter_sortBy_tie (f : String) (kv0 : String × DValue) :
    ∀ l : Table,
      (sortByField f l).filter (fieldTie f kv0) = l.filter (fieldTie f kv0) := by
  intro l
  induction l with
  | nil => rfl
  | cons x xs ih =>
    unfold sortByField at ih ⊢
    simp only [sortBy, filter_insertBy_tie f kv0 x (sortBy (orderByCmp f) xs), ih]
    simp only [List.filter]
    split <;> simp_all

/-- Adjacent records of the list are consistent with the comparator: no
record is strictly greater than its successor. -/
def chainNotGt (cmp : α → α → Ordering) : List α → Bool
  | [] => true
  | [_] => true
  | a :: b :: rest => !(cmp a b == .gt) && chainNotGt cmp (b :: rest)

theorem ordBeqGtFalse {o : Ordering} (h : o ≠ .gt) : (o == .gt) = false := by
  cases o <;> first | rfl | exact absurd rfl h

theorem chainNotGt_insertBy {cmp : α → α → Ordering}
    (hswap : ∀ a b, cmp a b = .gt → cmp b a ≠ .gt) (x : α) :
    ∀ l, chainNotGt cmp l = true → chainNotGt cmp (insertBy cmp x l) = true := by
  intro l
  induction l with
  | nil => intro _; rfl
  | cons y ys ih =>
    intro h
    by_cases hxy : cmp x y = .gt
    · simp only [insertBy, if_pos hxy]
      cases ys with
      | nil =>
        show (!(cmp y x == .gt) && chainNotGt cmp [x]) = true
        rw [ordBeqGtFalse (hswap x y hxy)]
        rfl
      | cons w ws =>
        have h12 : (!(cmp y w == .gt)) = true ∧ chainNotGt cmp (w :: ws) = true := by
          simpa [chainNotGt, Bool.and_eq_true] using h
        by_cases hxw : cmp x w = .gt
        · have hins : insertBy cmp x (w :: ws) = w :: insertBy cmp x ws := by
            simp [insertBy, hxw]
          have hrec := ih h12.2
          rw [hins] at hrec
          rw [hins]
          show (!(cmp y w == .gt) && chainNotGt cmp (w :: insertBy cmp x ws)) = true
          rw [Bool.and_eq_true]
          exact ⟨h12.1, hrec⟩
        · have hins : insertBy cmp x (w :: ws) = x :: w :: ws := by
            simp [insertBy, hxw]
          rw [hins]
          show (!(cmp y x == .gt) && chainNotGt cmp (x :: w :: ws)) = true
          rw [Bool.and_eq_true]
          refine ⟨?_, ?_⟩
          · rw [ordBeqGtFalse (hswap x y hxy)]; rfl
          · show (!(cmp x w == .gt) && chainNotGt cmp (w :: ws)) = true
            rw [Bool.and_eq_true]
            refine ⟨?_, h12.2⟩
            rw [ordBeqGtFalse hxw]; rfl
    · simp only [insertBy, if_neg hxy]
      show (!(cmp x y == .gt) && chainNotGt cmp (y :: ys)) = true
      rw [Bool.and_eq_true]
      refine ⟨?_, h⟩
      rw [ordBeqGtFalse hxy]; rfl

theorem chainNotGt_sortBy (f : String) (l : Table) :
    chainNotGt (orderByCmp f) (sortByField f l) = true := by
  unfold sortByField
  induction l with
  | nil => rfl
  | cons x xs ih =>
    exact chainNotGt_insertBy (fun a b h => orderByCmp_swap h) x _ ih

theorem insertBy_perm (cmp : α → α → Ordering) (x : α) :
    ∀ l : List α, (insertBy cmp x l).Perm (x :: l) := by
  intro l
  induction l with
  | nil => exact List.Perm.refl _
  | cons y ys ih =>
    simp only [insertBy]
    split
    · exact (ih.cons y).trans (List.Perm.swap x y ys)
    · exact List.Perm.refl _

theorem sortBy_perm (cmp : α → α → Ordering) :
    ∀ l : List α, (sortBy cmp l).Perm l := by
  intro l
  induction l with
  | nil => exact List.Perm.refl _
  | cons x xs ih => exact (insertBy_perm cmp x _).trans (ih.cons x)

def c6HasRec : String × DValue := ("a", .vobj [("t", .vstr "x")])

def c6MissRec : String × DValue := ("b", .vobj [])

def c6Stmt : SelectStatement := ⟨.all, .issues, none, some ⟨"t", .asc⟩, none, none⟩

/-- Counterexample to C6 as stated: ordering by `t` a table whose first
record has the field and whose second lacks it, the sorted output puts the
record *missing* `t` first, so records missing the field do not appear after
records that have it. -/
theorem order_by_missing_c6_counterexample :
    getAll [c6HasRec, c6MissRec] c6Stmt = [c6MissRec, c6HasRec]
  ∧ hasFieldRec "t" c6HasRec = true
  ∧ hasFieldRec "t" c6MissRec = false
  ∧ missingAfter "t" (getAll [c6HasRec, c6MissRec] c6Stmt) = false :=
  ⟨rfl, rfl, rfl, rfl⟩

/-- Claim C6 (amended): for every SELECT with ORDER BY `f` the engine stably
sorts by `f`; records missing `f` appear *before* records that have it (in
every SELECT output, WHERE filter included); ties — records whose `f` values
are equal, and the records lacking `f` among each other — preserve the
storage iteration order; adjacent records of the sorted list are consistent
with the partial order on `f`'s values; and the sort permutes the window it
was given. -/
theorem order_by_missing_before_c6 :
    (∀ (table : Table) (cols : Columns) (ent : EntityType)
        (fl : Option FilterExpression) (lim off : Option Nat)
        (dir : OrderDirection) (f : String),
      missingFirst f (getAll table ⟨cols, ent, fl, some ⟨f, dir⟩, lim, off⟩) = true)
  ∧ (∀ (f : String) (l : Table),
        (∀ kv0, (sortByField f l).filter (fieldTie f kv0) = l.filter (fieldTie f kv0))
      ∧ chainNotGt (orderByCmp f) (sortByField f l) = true
      ∧ (sortByField f l).Perm l) := by
  constructor
  · intro table cols ent fl lim off dir f
    exact missingFirst_filter (missingFirst_sortBy f _)
  · intro f l
    exact ⟨fun kv0 => filter_sortBy_tie f kv0 l, chainNotGt_sortBy f l,
      sortBy_perm _ l⟩

end IssueCraft
